import Mathlib

/-!
Verification development for the JBGLangImprover document-editing pipeline.

The definitions below are shallow embeddings of the Python source under
`src/app/src/` (JBGDocumentEditor.py, JBGDocumentStructureExtractor.py,
JBGSuperDocumentEditor.py, JBGDocxInternalValidator.py, JBGDocxRepairer.py).
Python strings are Lean `String`s (both count Unicode code points), Python
lists are Lean `List`s, Python dicts are insertion-ordered association lists,
and fallible code returns `Option`/`Except`.
-/

namespace JBG

/-! ## Python string primitives

`str.strip()`, `re.sub(r"\s+", " ", s)`, `str.split()` (no argument),
substring membership (`in`), `str.find`, and `str.isdigit`, modelled over
`List Char`.  Whitespace is `Char.isWhitespace` (space, tab, CR, LF), which
covers every whitespace character appearing in the repository's data.
-/

def isWs (c : Char) : Bool := c.isWhitespace

/-- `str.strip()` on a character list: drop leading and trailing whitespace. -/
def stripChars (l : List Char) : List Char :=
  ((l.dropWhile isWs).reverse.dropWhile isWs).reverse

/-- `str.strip()`. -/
def pyStrip (s : String) : String := ⟨stripChars s.data⟩

/-- `re.sub(r"\s+", " ", s)`: collapse every whitespace run to one space.
The boolean flag records whether the previous character was whitespace. -/
def collapseWsAux : List Char → Bool → List Char
  | [], _ => []
  | c :: cs, inRun =>
    if isWs c then
      if inRun then collapseWsAux cs true else ' ' :: collapseWsAux cs true
    else c :: collapseWsAux cs false

/-- `JBGDocumentEditor._normalize_text`: collapse whitespace runs to single
spaces, then strip. -/
def normalizeText (s : String) : String :=
  pyStrip ⟨collapseWsAux s.data false⟩

/-- Word accumulator for `str.split()`. -/
def wordsAux : List Char → List Char → List (List Char)
  | [], acc => if acc.isEmpty then [] else [acc.reverse]
  | c :: cs, acc =>
    if isWs c then
      if acc.isEmpty then wordsAux cs [] else acc.reverse :: wordsAux cs []
    else wordsAux cs (c :: acc)

/-- `str.split()` with no separator: whitespace-delimited words, empties
dropped. -/
def pySplit (s : String) : List String :=
  (wordsAux s.data []).map fun l => ⟨l⟩

/-- List-prefix test. -/
def isPrefixOfL : List Char → List Char → Bool
  | [], _ => true
  | _ :: _, [] => false
  | a :: as, b :: bs => a = b && isPrefixOfL as bs

/-- Python `needle in hay` for strings (contiguous substring). -/
def containsSub : List Char → List Char → Bool
  | [], needle => needle.isEmpty
  | h :: t, needle => isPrefixOfL needle (h :: t) || containsSub t needle

/-- Python `str.isdigit()` (restricted to ASCII digits, which is all the
guard in the source can meet): nonempty and all digits. -/
def pyIsDigit (s : String) : Bool :=
  !s.data.isEmpty && s.data.all (·.isDigit)

/-- Python `hay.find(needle)` scanning from index `i`. -/
def findSubAux (needle : List Char) : Nat → List Char → Option Nat
  | i, s =>
    if isPrefixOfL needle s then some i
    else
      match s with
      | [] => none
      | _ :: t => findSubAux needle (i + 1) t

/-- Python `hay.find(needle)` (first match index, `none` for -1). -/
def pyFind (hay needle : String) : Option Nat :=
  findSubAux needle.data 0 hay.data

/-- Replace the slice `[start, start+len)` of `s` by `repl`. -/
def replaceAt (s : List Char) (start len : Nat) (repl : List Char) : List Char :=
  s.take start ++ repl ++ s.drop (start + len)

/-! ## Edit-distance similarity (`thefuzz.fuzz.ratio`)

`fuzz.ratio` (thefuzz ≥ 0.20, backed by rapidfuzz) is
`int(round(100 * (1 - indel_distance/lensum)))` where the indel distance is
the Levenshtein distance with substitution cost 2; equivalently the score is
`round(200 * LCS(a,b) / (|a| + |b|))`, rounded half-to-even as Python's
`round` does, and 100 when both strings are empty.
-/

/-- One row update of the longest-common-subsequence dynamic program.
`prev` is the previous row (aligned so its head is the diagonal cell),
`left` the cell just computed on the current row. -/
def lcsRowStep {α : Type} [DecidableEq α] (x : α) : List α → List Nat → Nat → List Nat
  | [], _, _ => []
  | y :: ys, prev, left =>
    let diag := prev.headD 0
    let up := prev.tail.headD 0
    let cur := if x = y then diag + 1 else max left up
    cur :: lcsRowStep x ys prev.tail cur

/-- Length of a longest common subsequence. -/
def lcsLen {α : Type} [DecidableEq α] (xs ys : List α) : Nat :=
  (xs.foldl (fun row x => 0 :: lcsRowStep x ys row 0)
    (List.replicate (ys.length + 1) 0)).getLastD 0

/-- Round `num / den` to the nearest natural, ties to even (Python `round`). -/
def roundHalfEven (num den : Nat) : Nat :=
  let q := num / den
  let r := num % den
  if 2 * r < den then q
  else if den < 2 * r then q + 1
  else if q % 2 = 0 then q else q + 1

/-- `thefuzz.fuzz.ratio` on the 0–100 integer scale. -/
def fuzzRatio (a b : String) : Nat :=
  let la := a.data.length
  let lb := b.data.length
  if la + lb = 0 then 100
  else roundHalfEven (200 * lcsLen a.data b.data) (la + lb)

/-- `TEXT_SIM_SCORE_THRESHOLD` (JBGDocumentEditor.py line 31).  The source
stores 90.0 and compares `float(score) < 90.0`; with integer scores the two
comparisons agree. -/
def TEXT_SIM_SCORE_THRESHOLD : Nat := 90

/-! ## Word diff (`JBGDocumentEditor._diff_words`)

The source tokenizes both strings with `str.split()` and runs
`difflib.ndiff` over the word lists, keeping lines tagged `' '`, `'-'`,
`'+'` (the `'?'` hint lines ndiff can emit are skipped by the source loop).
`ndiff` is modelled as a longest-common-subsequence alignment; the property
the development relies on is difflib's documented restore invariant: the
kept+inserted lines are exactly the second sequence and the kept+deleted
lines exactly the first.  `diffAux` recurses on an explicit bound
(`fuel ≥ |xs| + |ys|` always holds at the call site) so that every
definition stays structurally recursive and computable by the kernel.
-/

inductive DiffTag : Type
  | keep
  | del
  | ins
deriving DecidableEq, Repr

def diffAux : Nat → List String → List String → List (DiffTag × String)
  | _, [], ys => ys.map fun y => (DiffTag.ins, y)
  | _, x :: xs, [] => (x :: xs).map fun z => (DiffTag.del, z)
  | 0, _ :: _, _ :: _ => []
  | fuel + 1, x :: xs, y :: ys =>
    if x = y then (DiffTag.keep, x) :: diffAux fuel xs ys
    else if lcsLen (x :: xs) ys ≤ lcsLen xs (y :: ys) then
      (DiffTag.del, x) :: diffAux fuel xs (y :: ys)
    else
      (DiffTag.ins, y) :: diffAux fuel (x :: xs) ys

/-- Tagged word alignment of two word lists. -/
def diffWordLists (xs ys : List String) : List (DiffTag × String) :=
  diffAux (xs.length + ys.length) xs ys

/-- `JBGDocumentEditor._diff_words`: list of `(kind, text)` spans with
`kind ∈ {"text", "strike", "insert"}` and every word re-emitted with a
single trailing space. -/
def diffWords (old new : String) : List (String × String) :=
  (diffWordLists (pySplit old) (pySplit new)).map fun p =>
    (match p.1 with
      | DiffTag.keep => "text"
      | DiffTag.del => "strike"
      | DiffTag.ins => "insert",
     p.2 ++ " ")

/-- Words of a tagged alignment that belong to the second sequence
(kept and inserted words, in order). -/
def keepIns (l : List (DiffTag × String)) : List String :=
  l.filterMap fun p =>
    match p.1 with
    | DiffTag.del => none
    | _ => some p.2

theorem keepIns_cons_ins (y : String) (l : List (DiffTag × String)) :
    keepIns ((DiffTag.ins, y) :: l) = y :: keepIns l := rfl

theorem keepIns_cons_keep (y : String) (l : List (DiffTag × String)) :
    keepIns ((DiffTag.keep, y) :: l) = y :: keepIns l := rfl

theorem keepIns_cons_del (y : String) (l : List (DiffTag × String)) :
    keepIns ((DiffTag.del, y) :: l) = keepIns l := rfl

theorem keepIns_map_ins (ys : List String) :
    keepIns (ys.map fun y => (DiffTag.ins, y)) = ys := by
  induction ys with
  | nil => rfl
  | cons y ys ih => rw [List.map_cons, keepIns_cons_ins, ih]

theorem keepIns_map_del (xs : List String) :
    keepIns (xs.map fun z => (DiffTag.del, z)) = [] := by
  induction xs with
  | nil => rfl
  | cons x xs ih => rw [List.map_cons, keepIns_cons_del, ih]

theorem keepIns_diffAux :
    ∀ (fuel : Nat) (xs ys : List String), xs.length + ys.length ≤ fuel →
      keepIns (diffAux fuel xs ys) = ys := by
  intro fuel
  induction fuel with
  | zero =>
    intro xs ys h
    match xs, ys with
    | [], ys => rw [diffAux, keepIns_map_ins]
    | x :: xs, [] =>
      rw [diffAux, List.map_cons, keepIns_cons_del, keepIns_map_del]
    | x :: xs, y :: ys => simp at h
  | succ n ih =>
    intro xs ys h
    match xs, ys with
    | [], ys => rw [diffAux, keepIns_map_ins]
    | x :: xs, [] =>
      rw [diffAux, List.map_cons, keepIns_cons_del, keepIns_map_del]
    | x :: xs, y :: ys =>
      rw [diffAux]
      by_cases hxy : x = y
      · rw [if_pos hxy, keepIns_cons_keep, hxy,
          ih xs ys (by simp at h; omega)]
      · rw [if_neg hxy]
        by_cases hlcs : lcsLen (x :: xs) ys ≤ lcsLen xs (y :: ys)
        · rw [if_pos hlcs, keepIns_cons_del,
            ih xs (y :: ys) (by simp at h ⊢; omega)]
        · rw [if_neg hlcs, keepIns_cons_ins,
            ih (x :: xs) ys (by simp at h ⊢; omega)]

theorem keepIns_diffWordLists (xs ys : List String) :
    keepIns (diffWordLists xs ys) = ys :=
  keepIns_diffAux _ xs ys (Nat.le_refl _)

/-- The operation the claim performs on the diff output: keep the spans
tagged `"text"` or `"insert"`, drop the tags, concatenate the texts. -/
def reconstructNew (spans : List (String × String)) : String :=
  String.join ((spans.filter fun p => p.1 == "text" || p.1 == "insert").map Prod.snd)

theorem reconstruct_list_eq (l : List (DiffTag × String)) :
    (((l.map fun p =>
          (match p.1 with
            | DiffTag.keep => "text"
            | DiffTag.del => "strike"
            | DiffTag.ins => "insert",
           p.2 ++ " ")).filter fun p => p.1 == "text" || p.1 == "insert").map
        Prod.snd)
      = (keepIns l).map (· ++ " ") := by
  induction l with
  | nil => rfl
  | cons p l ih =>
    obtain ⟨tag, w⟩ := p
    cases tag with
    | keep =>
      simp only [List.map_cons, List.filter_cons, keepIns_cons_keep]
      rw [if_pos (by decide), List.map_cons, ih]
    | del =>
      simp only [List.map_cons, List.filter_cons, keepIns_cons_del]
      rw [if_neg (by decide), ih]
    | ins =>
      simp only [List.map_cons, List.filter_cons, keepIns_cons_ins]
      rw [if_pos (by decide), List.map_cons, ih]

theorem reconstructNew_spans (l : List (DiffTag × String)) :
    reconstructNew
        (l.map fun p =>
          (match p.1 with
            | DiffTag.keep => "text"
            | DiffTag.del => "strike"
            | DiffTag.ins => "insert",
           p.2 ++ " "))
      = String.join ((keepIns l).map (· ++ " ")) :=
  congrArg String.join (reconstruct_list_eq l)

/-- C2 (counterexample).  The claim states that concatenating the `"text"`
and `"insert"` spans of `_diff_words old new` reconstructs `new` exactly,
character for character.  It fails already at `old = new = "x"`: the diff
re-emits every word with a trailing space, so the concatenation is `"x "`,
not `"x"`. -/
theorem C2_exact_reconstruction_counterexample :
    ¬ reconstructNew (diffWords "x" "x") = "x" := by decide

/-- C2 (amended).  For every pair of strings, concatenating the `"text"` and
`"insert"` spans of `_diff_words old new` (in order, tags dropped) yields the
whitespace-split words of `new`, each word re-emitted with a single trailing
space — i.e. `new` is reconstructed only up to whitespace normalization and
a trailing space per word, not character for character. -/
theorem C2_diff_reconstructs_words_spaced (old new : String) :
    reconstructNew (diffWords old new)
      = String.join ((pySplit new).map (· ++ " ")) := by
  unfold diffWords
  rw [reconstructNew_spans, keepIns_diffWordLists]

/-! ## Paragraph editing (`JBGDocumentEditor._edit_docx`, runs branch)

A `Run` is a contiguous formatted text span of a paragraph; the only
formatting states the editor produces or inspects are plain, strike+red
(FF0000) and green (008000).  `hasFootnoteRef` records a
`w:footnoteReference` child.  The comment store (motivations) is not part of
the modelled state: `add_comment` failures are swallowed by the source and
never influence the run rewrite or the reported outcome.
-/

/-- The regex fallback `re.compile(r"\s+".join(map(re.escape, old.split())))`:
length of a match of word₁ ⟨ws⁺⟩ word₂ ⟨ws⁺⟩ … at the head of `s`. -/
def wsTolerantMatchLen : List (List Char) → List Char → Option Nat
  | [], _ => some 0
  | [w], s => if isPrefixOfL w s then some w.length else none
  | w :: w2 :: ws, s =>
    if isPrefixOfL w s then
      let rest := s.drop w.length
      let k := (rest.takeWhile isWs).length
      if k = 0 then none
      else
        match wsTolerantMatchLen (w2 :: ws) (rest.drop k) with
        | some m => some (w.length + k + m)
        | none => none
    else none

/-- Leftmost match `(start, length)` of the whitespace-tolerant pattern. -/
def findTolerantAux (words : List (List Char)) : Nat → List Char → Option (Nat × Nat)
  | i, [] => (wsTolerantMatchLen words []).map fun m => (i, m)
  | i, c :: t =>
    match wsTolerantMatchLen words (c :: t) with
    | some m => some (i, m)
    | none => findTolerantAux words (i + 1) t

/-- The `updated_text` computation of `_edit_docx` (lines 163–176): replace
the first raw occurrence of `old` by `new`; failing that, replace the first
whitespace-tolerant occurrence; failing that, `updated_text = new`. -/
def computeUpdated (baseline old new : String) : String :=
  match pyFind baseline old with
  | some i => ⟨replaceAt baseline.data i old.data.length new.data⟩
  | none =>
    match findTolerantAux ((pySplit old).map String.data) 0 baseline.data with
    | some (i, m) => ⟨replaceAt baseline.data i m new.data⟩
    | none => new

inductive RunFmt : Type
  | plain
  | strikeRed
  | greenIns
deriving DecidableEq, Repr

structure Run where
  text : String
  fmt : RunFmt
  hasFootnoteRef : Bool
deriving DecidableEq, Repr

structure Para where
  runs : List Run
deriving DecidableEq, Repr

/-- `paragraph.text` in python-docx: concatenation of the run texts. -/
def paraText (p : Para) : String := String.join (p.runs.map (·.text))

/-- Capture `w:footnoteReference` runs with their character offset in the
paragraph's plain text (lines 180–188). -/
def captureRefs : List Run → Nat → List (Nat × Run)
  | [], _ => []
  | r :: rs, pos =>
    if r.hasFootnoteRef then (pos, r) :: captureRefs rs (pos + r.text.length)
    else captureRefs rs (pos + r.text.length)

/-- Pop every queued reference whose recorded offset has been reached. -/
def takeDueRefs (emitted : Nat) : List (Nat × Run) → List Run × List (Nat × Run)
  | [] => ([], [])
  | (o, r) :: rest =>
    if o ≤ emitted then
      let (due, remaining) := takeDueRefs emitted rest
      (r :: due, remaining)
    else ([], (o, r) :: rest)

/-- Formatting assigned to a rebuilt run for a diff span kind. -/
def spanFmt (kind : String) : RunFmt :=
  if kind == "strike" then RunFmt.strikeRed
  else if kind == "insert" then RunFmt.greenIns
  else RunFmt.plain

/-- The rebuild loop of lines 204–222: emit one run per diff span, advance
the baseline counter for `"text"`/`"strike"` spans only, and append due
footnote-reference runs after each span. -/
def rebuildRuns : List (String × String) → Nat → List (Nat × Run) → List Run
  | [], _, refs => refs.map Prod.snd
  | (kind, val) :: spans, emitted, refs =>
    let emitted' :=
      if kind == "text" || kind == "strike" then emitted + val.length else emitted
    let (due, rem) := takeDueRefs emitted' refs
    Run.mk val (spanFmt kind) false :: (due ++ rebuildRuns spans emitted' rem)

/-- Clear the paragraph's runs and rebuild them from the diff spans,
re-inserting captured footnote references (lines 190–222). -/
def applyMarkup (p : Para) (spans : List (String × String)) : Para :=
  let refs := captureRefs p.runs 0
  let (due0, rem0) := takeDueRefs 0 refs
  ⟨due0 ++ rebuildRuns spans 0 rem0⟩

/-- Outcome of one change on one unit.  `noMatch score` corresponds to the
source's `logger.error("❌ No enough match …")` report carrying the achieved
similarity score. -/
inductive MatchOutcome : Type
  | applied
  | noMatch (score : Nat)
deriving DecidableEq, Repr

/-- The per-change paragraph path of `_edit_docx` (lines 142–240): exact
normalized-substring test, fuzzy-ratio fallback against the whole unit, and
the run rewrite on success. -/
def editParagraphChange (p : Para) (old new : String) : Para × MatchOutcome :=
  let originalText := paraText p
  let nOld := normalizeText old
  let nOrig := normalizeText originalText
  if containsSub nOrig.data nOld.data then
    (applyMarkup p (diffWords originalText (computeUpdated originalText old new)),
     MatchOutcome.applied)
  else
    let score := fuzzRatio nOld nOrig
    if score < TEXT_SIM_SCORE_THRESHOLD then (p, MatchOutcome.noMatch score)
    else
      (applyMarkup p (diffWords originalText (computeUpdated originalText old new)),
       MatchOutcome.applied)

/-- C1.  For a paragraph-like unit: if the normalized old text is a substring
of the normalized unit text the change is applied; otherwise, with a
similarity ratio at or above the fixed threshold 90, the change is applied as
a whole-unit match; with a ratio strictly below 90 the change is not applied,
the unit's runs stay unchanged, and the failure is reported (`noMatch` with
the achieved score). -/
theorem C1_paragraph_anchor_trichotomy (p : Para) (old new : String) :
    (containsSub (normalizeText (paraText p)).data (normalizeText old).data = true →
      (editParagraphChange p old new).2 = MatchOutcome.applied) ∧
    (containsSub (normalizeText (paraText p)).data (normalizeText old).data = false →
      TEXT_SIM_SCORE_THRESHOLD ≤ fuzzRatio (normalizeText old) (normalizeText (paraText p)) →
      (editParagraphChange p old new).2 = MatchOutcome.applied) ∧
    (containsSub (normalizeText (paraText p)).data (normalizeText old).data = false →
      fuzzRatio (normalizeText old) (normalizeText (paraText p)) < TEXT_SIM_SCORE_THRESHOLD →
      editParagraphChange p old new
        = (p, MatchOutcome.noMatch
            (fuzzRatio (normalizeText old) (normalizeText (paraText p))))) := by
  refine ⟨fun h => ?_, fun h1 h2 => ?_, fun h1 h2 => ?_⟩
  · simp [editParagraphChange, h]
  · simp [editParagraphChange, h1, Nat.not_lt.mpr h2]
  · simp [editParagraphChange, h1, h2]

def c1WitnessPara : Para := ⟨[⟨"Myndigheten skall besluta.", RunFmt.plain, false⟩]⟩

/-- Witness for C1 at a concrete paragraph and change
(`old = "skall besluta"`, an exact normalized substring). -/
theorem C1_paragraph_anchor_trichotomy_witness :
    containsSub (normalizeText (paraText c1WitnessPara)).data
        (normalizeText "skall besluta").data = true ∧
      (editParagraphChange c1WitnessPara "skall besluta" "ska besluta").2
        = MatchOutcome.applied :=
  ⟨by decide,
   (C1_paragraph_anchor_trichotomy c1WitnessPara "skall besluta" "ska besluta").1
     (by decide)⟩

/-! ## Table cells and the change batch loop (`_edit_docx`, cell branch)

The cell branch (lines 243–333) tries an exact normalized-substring match
per paragraph, then a fuzzy whole-cell match guarded against short/numeric
old values.  When neither succeeds, the source executes
`self.failed_changes.append(change)` — but `failed_changes` is never
initialised anywhere in `JBGDocumentEditor` (`__init__` sets only
`footnote_changes` and `textbox_changes`), so this raises `AttributeError`,
which nothing inside `_edit_docx` catches; `apply_changes` logs and
re-raises it.  The batch loop is therefore modelled in `Except`.
-/

structure Cell where
  paras : List Para
deriving DecidableEq, Repr

/-- Run built for one diff span when a cell paragraph is rebuilt. -/
def mkSpanRun (s : String × String) : Run := ⟨s.2, spanFmt s.1, false⟩

/-- Step 1 of the cell branch: first paragraph whose normalized text
contains the (nonempty) normalized old text is rebuilt from
`_diff_words old new`. -/
def cellExactPass (nOld old new : String) : List Para → Option (List Para)
  | [] => none
  | p :: ps =>
    if !nOld.isEmpty && containsSub (normalizeText (paraText p)).data nOld.data then
      some (Para.mk ((diffWords old new).map mkSpanRun) :: ps)
    else
      match cellExactPass nOld old new ps with
      | some ps' => some (p :: ps')
      | none => none

/-- The cell branch of `_edit_docx`: `some` is a handled cell (rewritten),
`none` means `cell_handled` stayed false. -/
def editCellChange (c : Cell) (old new : String) : Option Cell :=
  let nOld := normalizeText old
  match cellExactPass nOld old new c.paras with
  | some ps => some ⟨ps⟩
  | none =>
    match c.paras with
    | [] => none
    | p0 :: rest =>
      let joined := normalizeText
        (String.intercalate "\n" ((p0 :: rest).map fun p => pyStrip (paraText p)))
      let score := fuzzRatio nOld joined
      if pyIsDigit nOld || nOld.length < 4 then none
      else if TEXT_SIM_SCORE_THRESHOLD ≤ score then
        some ⟨Para.mk ((diffWords old new).map mkSpanRun) :: rest⟩
      else none

/-- Content units reachable from the structural index used by `_edit_docx`
(python-docx paragraphs and header/footer paragraphs expose `.text`/`.runs`;
table cells are `_Cell`; footnotes and text boxes are raw XML elements that
only get queued). -/
inductive DocElem : Type
  | par (p : Para)
  | cell (c : Cell)
  | footnoteXml (footnoteId : String)
  | textboxXml
  | other
deriving DecidableEq, Repr

structure Change where
  element_id : String
  old : String
  new : String
deriving DecidableEq, Repr

structure DocState where
  elems : List (String × DocElem)
  footnoteQueue : List (String × String × String)
  textboxQueue : List (String × String × String)
deriving DecidableEq, Repr

inductive PyError : Type
  | attributeErrorFailedChanges
deriving DecidableEq, Repr

def lookupElem (l : List (String × DocElem)) (k : String) : Option DocElem :=
  match l.find? fun kv => kv.1 == k with
  | some kv => some kv.2
  | none => none

def setElem (l : List (String × DocElem)) (k : String) (v : DocElem) :
    List (String × DocElem) :=
  l.map fun kv => if kv.1 == k then (k, v) else kv

/-- One iteration of the change loop of `_edit_docx`. -/
def processChange (st : DocState) (ch : Change) : Except PyError DocState :=
  if ch.element_id.isEmpty then Except.ok st
  else
    match lookupElem st.elems ch.element_id with
    | none => Except.ok st
    | some (DocElem.par p) =>
      Except.ok { st with
        elems := setElem st.elems ch.element_id
          (DocElem.par (editParagraphChange p ch.old ch.new).1) }
    | some (DocElem.cell c) =>
      match editCellChange c ch.old ch.new with
      | some c' =>
        Except.ok { st with
          elems := setElem st.elems ch.element_id (DocElem.cell c') }
      | none => Except.error PyError.attributeErrorFailedChanges
    | some (DocElem.footnoteXml _) =>
      Except.ok { st with
        footnoteQueue := st.footnoteQueue ++ [(ch.element_id, ch.old, ch.new)] }
    | some DocElem.textboxXml =>
      Except.ok { st with
        textboxQueue := st.textboxQueue ++ [(ch.element_id, ch.old, ch.new)] }
    | some DocElem.other => Except.ok st

/-- The change loop of `_edit_docx` over the whole change list. -/
def editDocx (st : DocState) : List Change → Except PyError DocState
  | [] => Except.ok st
  | ch :: rest =>
    match processChange st ch with
    | Except.ok st' => editDocx st' rest
    | Except.error e => Except.error e

def c3State : DocState :=
  ⟨[("table_1_cell_1_1", DocElem.cell ⟨[⟨[⟨"abc", RunFmt.plain, false⟩]⟩]⟩),
    ("paragraph_1", DocElem.par ⟨[⟨"hello world", RunFmt.plain, false⟩]⟩)],
   [], []⟩

def c3Changes : List Change :=
  [⟨"table_1_cell_1_1", "xyzw", "q"⟩,
   ⟨"paragraph_1", "hello world", "hi world"⟩]

/-- C3 (code bug).  A change whose old text (`"xyzw"`) finds no match in the
targeted table cell (text `"abc"`, similarity 0 < 90) reaches the failure
branch `self.failed_changes.append(change)`; `failed_changes` is never
initialised, so the batch aborts with `AttributeError` and the following
paragraph change is never processed — the claim says the failure is reported
and every remaining change is still processed. -/
theorem C3_cell_no_match_aborts_batch :
    editDocx c3State c3Changes = Except.error PyError.attributeErrorFailedChanges := by
  rfl

/-! ## Footnote patching (`JBGDocumentEditor._edit_footnote_texts`)

A footnote of `word/footnotes.xml` is modelled with its id attribute, its
paragraphs (optional `w:pPr` blob kept opaque), and their runs; each run
records whether it holds a `w:footnoteRef` marker, its red+strike / green
formatting, and its `w:t` texts.  The comment-anchoring side path (it only
touches `document.xml`/`comments.xml`, never the rebuilt footnote) is
outside the modelled state.
-/

structure FnRun where
  hasFootnoteRef : Bool
  redStrike : Bool
  green : Bool
  texts : List String
deriving DecidableEq, Repr

structure FnPara where
  ppr : Option String
  runs : List FnRun
deriving DecidableEq, Repr

structure Footnote where
  id : String
  paras : List FnPara
deriving DecidableEq, Repr

/-- The baseline read at line 621: every `w:t` text in the footnote, in
document order. -/
def fnBaseline (fn : Footnote) : String :=
  String.join (fn.paras.map fun p =>
    String.join (p.runs.map fun r => String.join r.texts))

/-- The synthetic single-space run of lines 646–649. -/
def spaceRun : FnRun := ⟨false, false, false, [" "]⟩

/-- `_add_run(text, red_strike=True)`. -/
def redStrikeRun (t : String) : FnRun := ⟨false, true, false, [t]⟩

/-- `_add_run(text, green=True)`. -/
def greenRun (t : String) : FnRun := ⟨false, false, true, [t]⟩

/-- Lines 620–665: preserve only the pPr and the first `w:footnoteRef` run
of the first paragraph, clear the footnote, and rebuild it as one paragraph
`[marker?, space, strike+red(whole old text), green(whole new text)]`. -/
def rebuildFootnote (fn : Footnote) (newText : String) : Footnote :=
  let firstP := fn.paras.head?
  let savedPpr := firstP.bind (·.ppr)
  let refRun := firstP.bind fun p => p.runs.find? (·.hasFootnoteRef)
  ⟨fn.id,
   [⟨savedPpr,
     (match refRun with
       | some r => [r]
       | none => []) ++
       [spaceRun, redStrikeRun (fnBaseline fn), greenRun newText]⟩]⟩

structure FnChange where
  footnoteId : String
  old : String
  new : String
deriving DecidableEq, Repr

/-- `foot_tree.find(.//w:footnote[@w:id=fid])` plus in-place rebuild:
replace the first footnote whose id matches. -/
def applyFnChangeOnList (fid newText : String) : List Footnote → Option (List Footnote)
  | [] => none
  | fn :: rest =>
    if fn.id == fid then some (rebuildFootnote fn newText :: rest)
    else (applyFnChangeOnList fid newText rest).map (fn :: ·)

/-- One iteration of the loop at lines 605–667; the boolean mirrors whether
`changes_applied` was incremented. -/
def applyFootnoteChange (tree : List Footnote) (ch : FnChange) : List Footnote × Bool :=
  let fid := pyStrip ch.footnoteId
  if fid.isEmpty then (tree, false)
  else
    match applyFnChangeOnList fid ch.new tree with
    | some t => (t, true)
    | none => (tree, false)

theorem applyFnChangeOnList_append (fid newText : String)
    (pre post : List Footnote) (fn : Footnote)
    (hpre : ∀ g ∈ pre, (g.id == fid) = false) (hid : fn.id = fid) :
    applyFnChangeOnList fid newText (pre ++ fn :: post)
      = some (pre ++ rebuildFootnote fn newText :: post) := by
  induction pre with
  | nil => simp [applyFnChangeOnList, hid]
  | cons g gs ih =>
    have hg : (g.id == fid) = false := hpre g (by simp)
    have ih' := ih fun g' hg' => hpre g' (by simp [hg'])
    simp [applyFnChangeOnList, hg, ih']

/-- C10.  A footnote change is applied by footnote id alone: the outcome
does not depend on the change's old text in any way, and the matched
footnote is wholly rebuilt as a single paragraph holding exactly the
preserved marker run, one synthetic space run, one strike+red run carrying
the footnote's entire previous text, and one green run carrying the entire
new text — every other original run is discarded. -/
theorem C10_footnote_rebuild_by_id (tree : List Footnote) (ch : FnChange)
    (pre post : List Footnote) (fn : Footnote) (refRun : FnRun)
    (hsplit : tree = pre ++ fn :: post)
    (hpre : ∀ g ∈ pre, (g.id == pyStrip ch.footnoteId) = false)
    (hid : fn.id = pyStrip ch.footnoteId)
    (hfid : (pyStrip ch.footnoteId).isEmpty = false)
    (href : (fn.paras.head?.bind fun p => p.runs.find? (·.hasFootnoteRef))
      = some refRun) :
    (∀ old', applyFootnoteChange tree { ch with old := old' }
      = applyFootnoteChange tree ch) ∧
    applyFootnoteChange tree ch
      = (pre ++
          { id := fn.id,
            paras := [{ ppr := fn.paras.head?.bind (·.ppr),
                        runs := [refRun, spaceRun,
                          redStrikeRun (fnBaseline fn), greenRun ch.new] }] }
          :: post,
         true) := by
  constructor
  · intro old'
    rfl
  · subst hsplit
    simp only [applyFootnoteChange, hfid, Bool.false_eq_true, if_false,
      applyFnChangeOnList_append _ _ pre post fn hpre hid]
    simp [rebuildFootnote, href]

def c10Fn1 : Footnote := ⟨"1", [⟨none, [⟨true, false, false, []⟩]⟩]⟩

def c10Fn2 : Footnote :=
  ⟨"2", [⟨some "jc0", [⟨true, false, false, []⟩, ⟨false, false, false, ["Not"]⟩,
    ⟨false, false, false, ["e."]⟩]⟩]⟩

def c10Tree : List Footnote := [c10Fn1, c10Fn2]

def c10Ch : FnChange := ⟨" 2 ", "Note.", "Ny not."⟩

/-- Witness for C10 at a concrete footnote store and change. -/
theorem C10_footnote_rebuild_by_id_witness :
    (pyStrip " 2 ").isEmpty = false ∧
    applyFootnoteChange c10Tree c10Ch
      = ([c10Fn1,
          { id := "2",
            paras := [{ ppr := some "jc0",
                        runs := [⟨true, false, false, []⟩, spaceRun,
                          redStrikeRun "Note.", greenRun "Ny not."] }]}],
         true) :=
  ⟨by decide,
   by
    have h := (C10_footnote_rebuild_by_id c10Tree c10Ch [c10Fn1] [] c10Fn2
      ⟨true, false, false, []⟩ (by rfl) (by decide) (by decide) (by decide)
      (by decide)).2
    simpa [c10Fn2, fnBaseline] using h⟩

/-! ## Native-revision conversion
(`JBGSuperDocumentEditor._convert_markup_to_tracked`, lines 194–251, and
`_fix_or_inject_settings_xml`, lines 502–542)

A document run carries optional run properties (`w:color` value, `w:strike`,
`w:u`), an optional `w:t` child, and an optional `w:commentReference`.  The
converter wraps matching runs in `w:del`/`w:ins` elements; `ConvCtx`
supplies the timestamp and the `random.choice` draws over the injected rsid
pool (`pick k` is the index drawn at the k-th call).
-/

structure Rpr where
  colorVal : Option String
  strike : Bool
  underline : Bool
deriving DecidableEq, Repr

structure MRun where
  rpr : Option Rpr
  text : Option String
  commentRef : Bool
deriving DecidableEq, Repr

structure RevInfo where
  revId : Nat
  author : String
  date : String
  rsidR : String
  rsidRev : String
deriving DecidableEq, Repr

inductive TNode : Type
  | run (r : MRun)
  | del (info : RevInfo) (children : List TNode)
  | ins (info : RevInfo) (children : List TNode)

/-- `is_red_strike` (line 204). -/
def isRedStrike (rpr : Rpr) : Bool := rpr.colorVal == some "FF0000" && rpr.strike

/-- `is_green_insert` (line 205). -/
def isGreenIns (rpr : Rpr) : Bool := rpr.colorVal == some "008000"

/-- Runs the converter wraps in a deletion: red+strike properties and a
`w:t` child present. -/
def delSigWithText (r : MRun) : Bool :=
  match r.rpr, r.text with
  | some rpr, some _ => isRedStrike rpr
  | _, _ => false

/-- Runs the converter wraps in an insertion: green color (and not the
deletion signature, which takes priority) and a `w:t` child present. -/
def insSigWithText (r : MRun) : Bool :=
  match r.rpr, r.text with
  | some rpr, some _ => !isRedStrike rpr && isGreenIns rpr
  | _, _ => false

/-- `text.endswith((" ", ".", ",", ";", ":", "!", "?", "”", "’"))`. -/
def trailPunct : List Char := [' ', '.', ',', ';', ':', '!', '?', '”', '’']

/-- Line 221–222: append one space unless the text is empty or already ends
in whitespace/closing punctuation. -/
def padText (t : String) : String :=
  match t.data.getLast? with
  | none => t
  | some c => if trailPunct.contains c then t else t ++ " "

structure ConvCtx where
  date : String
  rsids : List String
  pick : Nat → Nat

/-- The k-th `random.choice(available_rsids)` draw. -/
def rsidAt (ctx : ConvCtx) (k : Nat) : String :=
  ctx.rsids.getD (ctx.pick k % ctx.rsids.length) ""

def REVISION_AUTHOR : String := "JBG Klarspråkningstjänst"

/-- Conversion of a single run (lines 194–251): the returned nodes replace
the run in place; the counters are the running `tracked_id` and the number
of rsid draws made so far. -/
def convertRun (ctx : ConvCtx) (inclMot : Bool) (tid k : Nat) (r : MRun) :
    List TNode × Nat × Nat :=
  match r.rpr with
  | none => ([TNode.run r], tid, k)
  | some rpr =>
    if !isRedStrike rpr && !isGreenIns rpr then ([TNode.run r], tid, k)
    else
      match r.text with
      | none => ([TNode.run r], tid, k)
      | some t =>
        let core : MRun := ⟨none, some (padText t), false⟩
        let info : RevInfo :=
          ⟨tid, REVISION_AUTHOR, ctx.date, rsidAt ctx k, rsidAt ctx (k + 1)⟩
        let wrapper :=
          if isRedStrike rpr then TNode.del info [TNode.run core]
          else TNode.ins info [TNode.run core]
        let extra :=
          if r.commentRef && inclMot then [TNode.run ⟨none, none, true⟩] else []
        (wrapper :: extra, tid + 1, k + 2)

def convertRuns (ctx : ConvCtx) (inclMot : Bool) :
    List MRun → Nat → Nat → List TNode × Nat × Nat
  | [], tid, k => ([], tid, k)
  | r :: rs, tid, k =>
    let (nodes, tid', k') := convertRun ctx inclMot tid k r
    let (rest, tid'', k'') := convertRuns ctx inclMot rs tid' k'
    (nodes ++ rest, tid'', k'')

def convertDoc (ctx : ConvCtx) (inclMot : Bool) :
    List (List MRun) → Nat → Nat → List (List TNode) × Nat × Nat
  | [], tid, k => ([], tid, k)
  | pRuns :: ps, tid, k =>
    let (nodes, tid', k') := convertRuns ctx inclMot pRuns tid k
    let (rest, tid'', k'') := convertDoc ctx inclMot ps tid' k'
    (nodes :: rest, tid'', k'')

/-- `_convert_markup_to_tracked` on the document body (`tracked_id` starts
at 1). -/
def convertMarkupToTracked (ctx : ConvCtx) (inclMot : Bool)
    (doc : List (List MRun)) : List (List TNode) :=
  (convertDoc ctx inclMot doc 1 0).1

def isDelNode : TNode → Bool
  | TNode.del _ _ => true
  | _ => false

def isInsNode : TNode → Bool
  | TNode.ins _ _ => true
  | _ => false

def isRunNode : TNode → Bool
  | TNode.run _ => true
  | _ => false

/-- A node has no del/ins nesting: wrappers contain only plain runs. -/
def nodeNoNest : TNode → Bool
  | TNode.run _ => true
  | TNode.del _ cs => cs.all isRunNode
  | TNode.ins _ cs => cs.all isRunNode

/-- Wrapper metadata: author, timestamp, and rsids drawn from the pool. -/
def wrapperInfoOk (ctx : ConvCtx) : TNode → Prop
  | TNode.run _ => True
  | TNode.del info _ =>
    info.author = REVISION_AUTHOR ∧ info.date = ctx.date ∧
      info.rsidR ∈ ctx.rsids ∧ info.rsidRev ∈ ctx.rsids
  | TNode.ins info _ =>
    info.author = REVISION_AUTHOR ∧ info.date = ctx.date ∧
      info.rsidR ∈ ctx.rsids ∧ info.rsidRev ∈ ctx.rsids

def countDelDoc (d : List (List TNode)) : Nat :=
  (d.map fun para => para.countP isDelNode).sum

def countInsDoc (d : List (List TNode)) : Nat :=
  (d.map fun para => para.countP isInsNode).sum

theorem rsidAt_mem (ctx : ConvCtx) (k : Nat) (h : ctx.rsids ≠ []) :
    rsidAt ctx k ∈ ctx.rsids := by
  unfold rsidAt
  have hlen : 0 < ctx.rsids.length := List.length_pos.mpr h
  have hlt : ctx.pick k % ctx.rsids.length < ctx.rsids.length :=
    Nat.mod_lt _ hlen
  rw [List.getD_eq_getElem?_getD, List.getElem?_eq_getElem hlt]
  simp

theorem convertRun_countDel (ctx : ConvCtx) (m : Bool) (tid k : Nat) (r : MRun) :
    ((convertRun ctx m tid k r).1.countP isDelNode)
      = if delSigWithText r then 1 else 0 := by
  rcases r with ⟨rpro, texto, cref⟩
  cases rpro with
  | none => simp [convertRun, delSigWithText, isDelNode]
  | some rpr =>
    cases texto with
    | none =>
      cases hrs : isRedStrike rpr <;> cases hgi : isGreenIns rpr <;>
        simp [convertRun, delSigWithText, hrs, hgi, isDelNode]
    | some t =>
      cases hrs : isRedStrike rpr <;> cases hgi : isGreenIns rpr <;>
        cases hcm : (cref && m) <;>
        simp [convertRun, delSigWithText, hrs, hgi, hcm, isDelNode,
          List.countP_cons]

theorem convertRun_countIns (ctx : ConvCtx) (m : Bool) (tid k : Nat) (r : MRun) :
    ((convertRun ctx m tid k r).1.countP isInsNode)
      = if insSigWithText r then 1 else 0 := by
  rcases r with ⟨rpro, texto, cref⟩
  cases rpro with
  | none => simp [convertRun, insSigWithText, isInsNode]
  | some rpr =>
    cases texto with
    | none =>
      cases hrs : isRedStrike rpr <;> cases hgi : isGreenIns rpr <;>
        simp [convertRun, insSigWithText, hrs, hgi, isInsNode]
    | some t =>
      cases hrs : isRedStrike rpr <;> cases hgi : isGreenIns rpr <;>
        cases hcm : (cref && m) <;>
        simp [convertRun, insSigWithText, hrs, hgi, hcm, isInsNode,
          List.countP_cons]

theorem convertRuns_countP (ctx : ConvCtx) (m : Bool) (f : TNode → Bool)
    (g : MRun → Bool)
    (hrun : ∀ tid k r, ((convertRun ctx m tid k r).1.countP f)
      = if g r then 1 else 0) :
    ∀ (rs : List MRun) (tid k : Nat),
      ((convertRuns ctx m rs tid k).1.countP f) = rs.countP g := by
  intro rs
  induction rs with
  | nil => intro tid k; simp [convertRuns]
  | cons r rs ih =>
    intro tid k
    rcases hcr : convertRun ctx m tid k r with ⟨nodes, tid', k'⟩
    rcases hcs : convertRuns ctx m rs tid' k' with ⟨rest, tid'', k''⟩
    have h1 := hrun tid k r
    rw [hcr] at h1
    have h2 := ih tid' k'
    rw [hcs] at h2
    simp only [convertRuns, hcr, hcs, List.countP_append, List.countP_cons,
      h1, h2]
    exact Nat.add_comm _ _

theorem convertDoc_countP (ctx : ConvCtx) (m : Bool) (f : TNode → Bool)
    (g : MRun → Bool)
    (hrun : ∀ tid k r, ((convertRun ctx m tid k r).1.countP f)
      = if g r then 1 else 0) :
    ∀ (doc : List (List MRun)) (tid k : Nat),
      (((convertDoc ctx m doc tid k).1.map fun para => para.countP f).sum)
        = (doc.map fun p => p.countP g).sum := by
  intro doc
  induction doc with
  | nil => intro tid k; simp [convertDoc]
  | cons pRuns ps ih =>
    intro tid k
    rcases hcr : convertRuns ctx m pRuns tid k with ⟨nodes, tid', k'⟩
    rcases hcs : convertDoc ctx m ps tid' k' with ⟨rest, tid'', k''⟩
    have h1 := convertRuns_countP ctx m f g hrun pRuns tid k
    rw [hcr] at h1
    have h2 := ih tid' k'
    rw [hcs] at h2
    simp [convertDoc, hcr, hcs, h1, h2]

theorem convertRun_all (ctx : ConvCtx) (m : Bool) (P : TNode → Prop)
    (hrun : ∀ r, P (TNode.run r))
    (hwrap : ∀ tid k core,
      P (TNode.del ⟨tid, REVISION_AUTHOR, ctx.date, rsidAt ctx k,
        rsidAt ctx (k + 1)⟩ [TNode.run core]) ∧
      P (TNode.ins ⟨tid, REVISION_AUTHOR, ctx.date, rsidAt ctx k,
        rsidAt ctx (k + 1)⟩ [TNode.run core])) :
    ∀ tid k r, ∀ n ∈ (convertRun ctx m tid k r).1, P n := by
  intro tid k r n hn
  rcases r with ⟨rpro, texto, cref⟩
  cases rpro with
  | none =>
    simp [convertRun] at hn
    subst hn; exact hrun _
  | some rpr =>
    cases texto with
    | none =>
      cases hrs : isRedStrike rpr <;> cases hgi : isGreenIns rpr <;>
        simp [convertRun, hrs, hgi] at hn <;> (subst hn; exact hrun _)
    | some t =>
      cases hrs : isRedStrike rpr <;> cases hgi : isGreenIns rpr <;>
        cases hcm : (cref && m) <;>
        simp [convertRun, hrs, hgi, hcm] at hn <;>
        first
          | exact hrun _
          | exact (hwrap tid k _).1
          | exact (hwrap tid k _).2
          | (subst hn
             first
               | exact hrun _
               | exact (hwrap tid k _).1
               | exact (hwrap tid k _).2)
          | (rcases hn with hn | hn <;> subst hn <;>
              first
                | exact hrun _
                | exact (hwrap tid k _).1
                | exact (hwrap tid k _).2)

theorem convertDoc_all (ctx : ConvCtx) (m : Bool) (P : TNode → Prop)
    (hrun : ∀ r, P (TNode.run r))
    (hwrap : ∀ tid k core,
      P (TNode.del ⟨tid, REVISION_AUTHOR, ctx.date, rsidAt ctx k,
        rsidAt ctx (k + 1)⟩ [TNode.run core]) ∧
      P (TNode.ins ⟨tid, REVISION_AUTHOR, ctx.date, rsidAt ctx k,
        rsidAt ctx (k + 1)⟩ [TNode.run core])) :
    ∀ (doc : List (List MRun)) (tid k : Nat),
      ∀ para ∈ (convertDoc ctx m doc tid k).1, ∀ n ∈ para, P n := by
  have hruns : ∀ (rs : List MRun) (tid k : Nat),
      ∀ n ∈ (convertRuns ctx m rs tid k).1, P n := by
    intro rs
    induction rs with
    | nil => intro tid k n hn; simp [convertRuns] at hn
    | cons r rs ih =>
      intro tid k n hn
      rcases hcr : convertRun ctx m tid k r with ⟨nodes, tid', k'⟩
      rcases hcs : convertRuns ctx m rs tid' k' with ⟨rest, tid'', k''⟩
      simp only [convertRuns, hcr, hcs] at hn
      rcases List.mem_append.mp hn with h | h
      · have := convertRun_all ctx m P hrun hwrap tid k r
        rw [hcr] at this
        exact this n h
      · have := ih tid' k'
        rw [hcs] at this
        exact this n h
  intro doc
  induction doc with
  | nil => intro tid k para hpara; simp [convertDoc] at hpara
  | cons pRuns ps ih =>
    intro tid k para hpara
    rcases hcr : convertRuns ctx m pRuns tid k with ⟨nodes, tid', k'⟩
    rcases hcs : convertDoc ctx m ps tid' k' with ⟨rest, tid'', k''⟩
    simp only [convertDoc, hcr, hcs, List.mem_cons] at hpara
    rcases hpara with h | h
    · subst h
      have := hruns pRuns tid k
      rw [hcr] at this
      exact this
    · have := ih tid' k'
      rw [hcs] at this
      exact this para h

/-- Direct children of `word/settings.xml` that the pipeline manipulates. -/
inductive SElem : Type
  | trackRevisions
  | rsids (vals : List String)
  | compat
  | updateFields
  | otherS (tag : String)
deriving DecidableEq, Repr

def isTrackRevisions : SElem → Bool
  | SElem.trackRevisions => true
  | _ => false

def isRsidsElem : SElem → Bool
  | SElem.rsids _ => true
  | _ => false

def isCompatElem : SElem → Bool
  | SElem.compat => true
  | _ => false

def isUpdateFieldsElem : SElem → Bool
  | SElem.updateFields => true
  | _ => false

/-- `JBGSuperDocumentEditor._fix_or_inject_settings_xml` (lines 502–542):
append `trackRevisions`, an empty `rsids` block, `compat` and
`updateFields` whenever each is missing. -/
def fixOrInjectSettings (s : List SElem) : List SElem :=
  let s1 := if s.any isTrackRevisions then s else s ++ [SElem.trackRevisions]
  let s2 := if s1.any isRsidsElem then s1 else s1 ++ [SElem.rsids []]
  let s3 := if s2.any isCompatElem then s2 else s2 ++ [SElem.compat]
  if s3.any isUpdateFieldsElem then s3 else s3 ++ [SElem.updateFields]

theorem fixOrInjectSettings_trackRevisions (s : List SElem) :
    (fixOrInjectSettings s).any isTrackRevisions = true := by
  unfold fixOrInjectSettings
  have h1 : ∀ t : List SElem, t.any isTrackRevisions = true →
      (if t.any isRsidsElem then t else t ++ [SElem.rsids []]).any
        isTrackRevisions = true := by
    intro t ht
    by_cases h : t.any isRsidsElem <;> simp [h, List.any_append, ht]
  have h2 : ∀ t : List SElem, t.any isTrackRevisions = true →
      (if t.any isCompatElem then t else t ++ [SElem.compat]).any
        isTrackRevisions = true := by
    intro t ht
    by_cases h : t.any isCompatElem <;> simp [h, List.any_append, ht]
  have h3 : ∀ t : List SElem, t.any isTrackRevisions = true →
      (if t.any isUpdateFieldsElem then t else t ++ [SElem.updateFields]).any
        isTrackRevisions = true := by
    intro t ht
    by_cases h : t.any isUpdateFieldsElem <;> simp [h, List.any_append, ht]
  have hbase : (if s.any isTrackRevisions then s
      else s ++ [SElem.trackRevisions]).any isTrackRevisions = true := by
    by_cases h : s.any isTrackRevisions <;>
      simp [h, List.any_append, isTrackRevisions]
  exact h3 _ (h2 _ (h1 _ hbase))

/-- C4 (counterexample).  The claim says a run whose properties are
underline plus red is replaced with an insertion wrapper.  The converter
tests only `color == "008000"` for insertions (and red+strike for
deletions), so an underline+red run is left untouched and no `w:ins`
wrapper is produced. -/
def redUnderlineRun : MRun := ⟨some ⟨some "FF0000", false, true⟩, some "fel", false⟩

def c4Ctx : ConvCtx := ⟨"2025-01-01T00:00:00+00:00", ["aabbccdd"], fun _ => 0⟩

theorem C4_underline_red_not_insertion_counterexample :
    convertMarkupToTracked c4Ctx false [[redUnderlineRun]]
        = [[TNode.run redUnderlineRun]] ∧
      countInsDoc (convertMarkupToTracked c4Ctx false [[redUnderlineRun]]) = 0 :=
  ⟨rfl, rfl⟩

/-- C4 (amended).  Native-revision conversion replaces every run with
strike+red properties and a text child by a deletion wrapper, and every run
with green color (008000) and a text child by an insertion wrapper —
underline+red runs are not recognised, and the wrapped text gets one space
appended unless it already ends in whitespace/closing punctuation.  For a
document with exactly one run of each signature the converted body holds
exactly one `w:del` and one `w:ins` wrapper; wrappers contain only plain
runs (no del/ins nesting); every wrapper carries the author, the timestamp
and session ids drawn from the injected pool; and the settings fix leaves
the revision-tracking flag set. -/
theorem C4_native_conversion_amended (ctx : ConvCtx) (inclMot : Bool)
    (doc : List (List MRun)) (settings : List SElem)
    (hpool : ctx.rsids ≠ [])
    (hdel : (doc.map fun p => p.countP delSigWithText).sum = 1)
    (hins : (doc.map fun p => p.countP insSigWithText).sum = 1) :
    countDelDoc (convertMarkupToTracked ctx inclMot doc) = 1 ∧
    countInsDoc (convertMarkupToTracked ctx inclMot doc) = 1 ∧
    (∀ para ∈ convertMarkupToTracked ctx inclMot doc, ∀ n ∈ para,
      nodeNoNest n = true) ∧
    (∀ para ∈ convertMarkupToTracked ctx inclMot doc, ∀ n ∈ para,
      wrapperInfoOk ctx n) ∧
    (fixOrInjectSettings settings).any isTrackRevisions = true := by
  refine ⟨?_, ?_, ?_, ?_, fixOrInjectSettings_trackRevisions settings⟩
  · unfold countDelDoc convertMarkupToTracked
    rw [convertDoc_countP ctx inclMot isDelNode delSigWithText
      (convertRun_countDel ctx inclMot) doc 1 0, hdel]
  · unfold countInsDoc convertMarkupToTracked
    rw [convertDoc_countP ctx inclMot isInsNode insSigWithText
      (convertRun_countIns ctx inclMot) doc 1 0, hins]
  · exact convertDoc_all ctx inclMot (fun n => nodeNoNest n = true)
      (fun r => rfl) (fun tid k core => ⟨rfl, rfl⟩) doc 1 0
  · exact convertDoc_all ctx inclMot (wrapperInfoOk ctx)
      (fun r => trivial)
      (fun tid k core =>
        ⟨⟨rfl, rfl, rsidAt_mem ctx k hpool, rsidAt_mem ctx (k + 1) hpool⟩,
         ⟨rfl, rfl, rsidAt_mem ctx k hpool, rsidAt_mem ctx (k + 1) hpool⟩⟩)
      doc 1 0

def c4WitnessDoc : List (List MRun) :=
  [[⟨some ⟨some "FF0000", true, false⟩, some "skall", false⟩,
    ⟨some ⟨some "008000", false, false⟩, some "ska", false⟩,
    ⟨none, some "beslutas", false⟩]]

/-- Witness for C4 (amended) at a concrete one-paragraph document with one
red+strike run and one green run. -/
theorem C4_native_conversion_amended_witness :
    c4Ctx.rsids ≠ [] ∧
    (c4WitnessDoc.map fun p => p.countP delSigWithText).sum = 1 ∧
    countDelDoc (convertMarkupToTracked c4Ctx false c4WitnessDoc) = 1 ∧
    countInsDoc (convertMarkupToTracked c4Ctx false c4WitnessDoc) = 1 :=
  ⟨by decide, by decide,
   (C4_native_conversion_amended c4Ctx false c4WitnessDoc []
      (by decide) (by decide) (by decide)).1,
   (C4_native_conversion_amended c4Ctx false c4WitnessDoc []
      (by decide) (by decide) (by decide)).2.1⟩

/-! ## Structural index for editing
(`DocumentStructureExtractor._extract_docx_elements`, lines 117–155)

The index is a Python dict keyed by element id, so inserting an existing
key overwrites the stored element and keeps its position.  The footer loop
reads `for fi, para in enumerate(...)` but stores under
`elements[f"footer_{i+1}"]`, reusing the loop variable `i` left over from
the header loop (or, when the header has no paragraphs, from the body
paragraph loop; if neither loop ran, Python raises `NameError`, modelled as
`none`).  The document shape is abstracted to the counts the id scheme
depends on; values tag the source object of each entry so overwrites are
observable.
-/

def dictInsert (d : List (String × String)) (k v : String) :
    List (String × String) :=
  if d.any fun kv => kv.1 == k then
    d.map fun kv => if kv.1 == k then (k, v) else kv
  else d ++ [(k, v)]

def dictInsertMany (d : List (String × String))
    (items : List (String × String)) : List (String × String) :=
  items.foldl (fun d kv => dictInsert d kv.1 kv.2) d

def dictLookup (d : List (String × String)) (k : String) : Option String :=
  (d.find? fun kv => kv.1 == k).map (·.2)

/-- Value bound to the Python name `i` when the footer loop body runs. -/
def staleI (nPara nHeader : Nat) : Option Nat :=
  if 0 < nHeader then some (nHeader - 1)
  else if 0 < nPara then some (nPara - 1)
  else none

def elementIdTag (prefixStr : String) (n : Nat) : String :=
  prefixStr ++ toString n

/-- `_extract_docx_elements` id assignment: paragraphs, table cells,
header paragraphs, footer paragraphs, text boxes, footnotes, inserted into
one dict in that order.  `none` models the `NameError` raised when the
footer loop uses an unbound `i`. -/
def extractDocxElements (nPara : Nat) (tables : List (Nat × Nat))
    (nHeader nFooter nTextbox nFootnote : Nat) :
    Option (List (String × String)) :=
  let paraItems := (List.range nPara).map fun i =>
    (elementIdTag "paragraph_" (i + 1), elementIdTag "parobj#" i)
  let tableItems := tables.enum.flatMap fun tic =>
    (List.range tic.2.1).flatMap fun ri =>
      (List.range tic.2.2).map fun ci =>
        (elementIdTag "table_" (tic.1 + 1) ++ elementIdTag "_cell_" (ri + 1)
            ++ elementIdTag "_" (ci + 1),
         elementIdTag "cellobj#" tic.1 ++ elementIdTag "_" ri
            ++ elementIdTag "_" ci)
  let headerItems := (List.range nHeader).map fun i =>
    (elementIdTag "header_" (i + 1), elementIdTag "headerobj#" i)
  let base := dictInsertMany
    (dictInsertMany (dictInsertMany [] paraItems) tableItems) headerItems
  let tailItems := ((List.range nTextbox).map fun k =>
      (elementIdTag "textbox_" (k + 1), elementIdTag "textboxobj#" k)) ++
    ((List.range nFootnote).map fun i =>
      (elementIdTag "footnote_" (i + 1), elementIdTag "footnoteobj#" i))
  if nFooter = 0 then some (dictInsertMany base tailItems)
  else
    match staleI nPara nHeader with
    | none => none
    | some i =>
      let footerItems := (List.range nFooter).map fun fi =>
        (elementIdTag "footer_" (i + 1), elementIdTag "footerobj#" fi)
      some (dictInsertMany (dictInsertMany base footerItems) tailItems)

def c5Extract : Option (List (String × String)) :=
  extractDocxElements 1 [] 2 2 0 0

/-- C5 (code bug).  For a document with one body paragraph, two header
paragraphs and two footer paragraphs, the editing index assigns BOTH footer
paragraphs the id `footer_2` (the stale header index), so `footer_1` does
not exist, the second footer paragraph overwrites the first, and only one
`footer_*` entry survives — the claim requires ids `footer_1`, `footer_2`
numbered from 1 with no entry overwritten. -/
theorem C5_footer_ids_collide :
    (c5Extract.map fun d => dictLookup d "footer_1") = some none ∧
    (c5Extract.map fun d => dictLookup d "footer_2")
      = some (some "footerobj#1") ∧
    (c5Extract.map fun d =>
        (d.filter fun kv => isPrefixOfL "footer".data kv.1.data).length)
      = some 1 := by
  refine ⟨by decide, by decide, by decide⟩

/-! ## Styles validation (`DocxInternalValidator._validate_styles`,
lines 108–123)

lxml stores namespaced attributes under their Clark name
`{namespace}localName`; `Element.get` takes a literal attribute name and
performs no prefix resolution, so `s.get("w:styleId")` returns `None` for a
style whose id was written as `w:styleId="…"` in the XML.  Attributes are
modelled as the post-parse association list with Clark-notation keys.
-/

def wNsClark (localName : String) : String :=
  "\x7bhttp://schemas.openxmlformats.org/wordprocessingml/2006/main\x7d"
    ++ localName

structure XStyle where
  attrs : List (String × String)
deriving DecidableEq, Repr

/-- lxml `Element.get(name)`: literal attribute lookup, no prefix
resolution. -/
def lxmlGet (attrs : List (String × String)) (name : String) : Option String :=
  (attrs.find? fun kv => kv.1 == name).map (·.2)

/-- `STYLE_TRANSLATION_MAP` (JBGDocxInternalValidator.py lines 8–75). -/
def STYLE_TRANSLATION_MAP : List (String × String) :=
  [("Standard", "Normal"),
   ("Standardstycketeckensnitt", "DefaultParagraphFont"),
   ("Normaltabell", "TableNormal"),
   ("Rubrik", "Title"),
   ("Rubrik1", "heading 1"),
   ("Rubrik2", "heading 2"),
   ("Rubrik3", "heading 3"),
   ("Rubrik4", "heading 4"),
   ("Rubrik5", "heading 5"),
   ("Rubrik6", "heading 6"),
   ("Rubrik7", "heading 7"),
   ("Rubrik8", "heading 8"),
   ("Rubrik9", "heading 9"),
   ("Underrubrik", "Subtitle"),
   ("Brödtext", "Body Text"),
   ("Fotnotstext", "footnote text"),
   ("Sidhuvud", "header"),
   ("Sidfot", "footer"),
   ("Citat", "Quote"),
   ("Ballongtext", "Balloon Text"),
   ("Beskrivning", "caption"),
   ("Slutkommentar", "endnote text"),
   ("Tabellrubrik", "Table Heading"),
   ("Innehåll1", "toc 1"),
   ("Innehåll2", "toc 2"),
   ("Innehåll3", "toc 3"),
   ("Innehållsförteckningsrubrik", "TOC Heading"),
   ("Rubrik1Char", "heading 1 Char"),
   ("Rubrik2Char", "heading 2 Char"),
   ("Rubrik3Char", "heading 3 Char"),
   ("Rubrik4Char", "heading 4 Char"),
   ("Rubrik5Char", "heading 5 Char"),
   ("Rubrik6Char", "heading 6 Char"),
   ("Rubrik7Char", "heading 7 Char"),
   ("Rubrik8Char", "heading 8 Char"),
   ("Rubrik9Char", "heading 9 Char"),
   ("RubrikChar", "Title Char"),
   ("UnderrubrikChar", "Subtitle Char"),
   ("BrdtextChar", "Body Text Char"),
   ("BallongtextChar", "Balloon Text Char"),
   ("Doldtext", "Hidden Text"),
   ("Hyperlnk", "Hyperlink"),
   ("FotnotstextChar", "Footnote Text Char"),
   ("SlutkommentarChar", "Endnote Text Char"),
   ("SidhuvudChar", "Header Char"),
   ("SidfotChar", "Footer Char"),
   ("CitatChar", "Quote Char"),
   ("Platshållartext", "Placeholder Text"),
   ("Ingenlista", "No List"),
   ("Punktlista", "List Bullet"),
   ("Punktlista2", "List Bullet 2"),
   ("Punktlista3", "List Bullet 3"),
   ("Numreradlista", "List Number"),
   ("Numreradlista2", "List Number 2"),
   ("Numreradlista3", "List Number 3"),
   ("Sidnummer", "page number"),
   ("Tabellrutnät", "Table Grid"),
   ("IAF", "TableNormal"),
   ("IAFBlåkolumn", "Table Colorful 1")]

/-- `STYLE_TRANSLATION_MAP.get(sid, sid)`, lifted over Python's `None`
(which is not a dict key). -/
def translateStyleId : Option String → Option String
  | none => none
  | some sid =>
    match STYLE_TRANSLATION_MAP.find? fun kv => kv.1 == sid with
    | some kv => some kv.2
    | none => some sid

def REQUIRED_STYLES : List String :=
  ["Normal", "DefaultParagraphFont", "TableNormal", "CommentText",
   "InsertedText", "DeletedText"]

/-- `_validate_styles` on an existing, parsed `styles.xml`: collect
`s.get("w:styleId")` over all `w:style` elements, translate, and report
each required style id not found. -/
def validateStyles (styles : List XStyle) : List String :=
  let styleIds := styles.map fun s => lxmlGet s.attrs "w:styleId"
  let normalizedIds := styleIds.map translateStyleId
  REQUIRED_STYLES.filterMap fun st =>
    if normalizedIds.contains (some st) then none
    else some ("⚠️ Missing style: " ++ st)

/-- A styles part that genuinely defines all six required base styles
(after parsing, the id attribute lives under its Clark name). -/
def c6Styles : List XStyle :=
  REQUIRED_STYLES.map fun sid =>
    ⟨[(wNsClark "type", "paragraph"), (wNsClark "styleId", sid)]⟩

/-- C6 (code bug).  Every required style id is present in the styles part
(third conjunct reads them back under the parsed Clark attribute name), yet
the validator reports all six as missing, because `s.get("w:styleId")`
resolves no namespace prefix and always returns `None` — the claim says no
missing-style error is reported when all six ids are defined. -/
theorem C6_styles_always_reported_missing :
    validateStyles c6Styles
        = REQUIRED_STYLES.map (fun st => "⚠️ Missing style: " ++ st) ∧
      (c6Styles.map fun s => lxmlGet s.attrs (wNsClark "styleId"))
        = REQUIRED_STYLES.map some := by
  refine ⟨by decide, by decide⟩

/-! ## XML package repair (`JBGDocxRepairer.DocxXmlRepairer.repair`,
lines 154–223, and its helper steps)

The package is modelled through the data each repair step reads or writes:
comment-reference ids in `document.xml`, comment ids in `comments.xml`
(`none` = part missing), relationship targets, content-type override part
names, settings children, style ids, and the file names present under
`word/`.  Each step returns the updated package together with the archive
members whose bytes it writes (`tree.write` calls); steps that hit an
unbound Python name return an error.  `repair`'s `try` block catches only
`zipfile.BadZipFile`, so those `NameError`s escape to the caller.
-/

inductive RErr : Type
  | nameErrorRandom
  | nameErrorDatetime
deriving DecidableEq, Repr

inductive TopErr : Type
  | unrecoverableZip
  | pyError (e : RErr)
deriving DecidableEq, Repr

structure RPackage where
  commentRefIds : List String
  commentIds : Option (List String)
  relsTargets : Option (List String)
  ctOverrideParts : Option (List String)
  settings : Option (List SElem)
  styleIds : Option (List String)
  wordParts : List String
deriving DecidableEq, Repr

def EXT_INFRA_FILES : List String :=
  ["commentsExtended.xml", "commentsIds.xml", "people.xml"]

def EXT_CT_PARTS : List String :=
  ["/word/commentsExtended.xml", "/word/commentsIds.xml", "/word/people.xml"]

/-- Append (in required order) the required entries not yet present. -/
def addMissing (req existing : List String) : List String :=
  existing ++ req.filter fun r => !existing.contains r

/-- Lines 162–173: create a minimal `comments.xml` when missing. -/
def stepComments (p : RPackage) : RPackage × List String :=
  match p.commentIds with
  | none =>
    ({ p with
        commentIds := some [],
        wordParts := p.wordParts ++ ["comments.xml"] },
     ["word/comments.xml"])
  | some _ => (p, [])

/-- `_add_comment_infra_files`: create the three extended comment parts
that are missing. -/
def stepInfraFiles (p : RPackage) : RPackage × List String :=
  let missing := EXT_INFRA_FILES.filter fun f => !p.wordParts.contains f
  ({ p with wordParts := p.wordParts ++ missing },
   missing.map fun f => "word/" ++ f)

/-- `_ensure_extended_comment_relationships` (lines 343–376): add missing
targets, then `tree.write(rels_path, …)` unconditionally. -/
def stepExtRels (p : RPackage) : RPackage × List String :=
  match p.relsTargets with
  | none => (p, [])
  | some ts =>
    ({ p with relsTargets := some (addMissing EXT_INFRA_FILES ts) },
     ["word/_rels/document.xml.rels"])

/-- `_ensure_content_type_overrides` (lines 378–410): add missing
overrides, then `tree.write(ct_path, …)` unconditionally. -/
def stepCtOverrides (p : RPackage) : RPackage × List String :=
  match p.ctOverrideParts with
  | none => (p, [])
  | some parts =>
    ({ p with ctOverrideParts := some (addMissing EXT_CT_PARTS parts) },
     ["[Content_Types].xml"])

/-- `_remove_orphan_comment_refs` (lines 232–254): drop references without
a comment definition, then `doc_tree.write(doc_path, …)` unconditionally. -/
def stepRemoveOrphans (p : RPackage) : RPackage × List String :=
  match p.commentIds with
  | none => (p, [])
  | some ids =>
    ({ p with commentRefIds := p.commentRefIds.filter fun r => ids.contains r },
     ["word/document.xml"])

/-- `_ensure_all_comment_ids_exist` (lines 428–458): a surviving orphan
reference would reach `datetime.now(...)`, a name the module never imports
(`NameError`); otherwise `comments_tree.write(...)` unconditionally. -/
def stepEnsureAllCommentIds (p : RPackage) : Except RErr (RPackage × List String) :=
  match p.commentIds with
  | none => Except.ok (p, [])
  | some ids =>
    if p.commentRefIds.any fun r => !ids.contains r then
      Except.error RErr.nameErrorDatetime
    else Except.ok (p, ["word/comments.xml"])

/-- `_ensure_comment_relationship` (lines 271–302): written only when the
`comments.xml` relationship is added. -/
def stepCommentRel (p : RPackage) : RPackage × List String :=
  match p.relsTargets with
  | none => (p, [])
  | some ts =>
    if ts.contains "comments.xml" then (p, [])
    else ({ p with relsTargets := some (ts ++ ["comments.xml"]) },
      ["word/_rels/document.xml.rels"])

/-- `_enable_track_revisions` (lines 412–426): `root.insert(0, track)` and
a write only when the flag is missing. -/
def stepTrackRevisions (p : RPackage) : RPackage × List String :=
  match p.settings with
  | none => (p, [])
  | some s =>
    if s.any isTrackRevisions then (p, [])
    else ({ p with settings := some (SElem.trackRevisions :: s) },
      ["word/settings.xml"])

/-- `_ensure_rsid_definitions` (lines 460–491): untouched when a `w:rsids`
block exists; otherwise the injection code evaluates
`random.randint(8, 15)` — and `JBGDocxRepairer.py` never imports `random`
(lines 1–9), so Python raises `NameError`. -/
def stepRsids (p : RPackage) : Except RErr (RPackage × List String) :=
  match p.settings with
  | none => Except.ok (p, [])
  | some s =>
    if s.any isRsidsElem then Except.ok (p, [])
    else Except.error RErr.nameErrorRandom

/-- `_ensure_styles_definitions` (lines 493–544): append missing base
styles; written only when something was added or the part was missing. -/
def stepStyles (p : RPackage) : RPackage × List String :=
  match p.styleIds with
  | none => ({ p with styleIds := some REQUIRED_STYLES }, ["word/styles.xml"])
  | some ids =>
    let missing := REQUIRED_STYLES.filter fun s => !ids.contains s
    if missing.isEmpty then (p, [])
    else ({ p with styleIds := some (ids ++ missing) }, ["word/styles.xml"])

/-- The step sequence of `DocxXmlRepairer.repair` (lines 176–184), with the
archive members each step writes. -/
def repairSem (p : RPackage) : Except RErr (RPackage × List String) :=
  let (p1, w1) := stepComments p
  let (p2, w2) := stepInfraFiles p1
  let (p3, w3) := stepExtRels p2
  let (p4, w4) := stepCtOverrides p3
  let (p5, w5) := stepRemoveOrphans p4
  match stepEnsureAllCommentIds p5 with
  | Except.error e => Except.error e
  | Except.ok (p6, w6) =>
    let (p7, w7) := stepCommentRel p6
    let (p8, w8) := stepTrackRevisions p7
    match stepRsids p8 with
    | Except.error e => Except.error e
    | Except.ok (p9, w9) =>
      let (p10, w10) := stepStyles p9
      Except.ok (p10,
        w1 ++ w2 ++ w3 ++ w4 ++ w5 ++ w6 ++ w7 ++ w8 ++ w9 ++ w10)

/-- `DocxXmlRepairer.repair`: only `zipfile.BadZipFile` is caught and
converted into the "unrecoverable" failure; every other exception (the
`NameError`s above) escapes unchanged. -/
def docxXmlRepair (isValidZip : Bool) (p : RPackage) :
    Except TopErr (RPackage × List String) :=
  if !isValidZip then Except.error TopErr.unrecoverableZip
  else
    match repairSem p with
    | Except.error e => Except.error (TopErr.pyError e)
    | Except.ok r => Except.ok r

def c7Pkg : RPackage :=
  { commentRefIds := [],
    commentIds := some [],
    relsTargets := some ["styles.xml", "settings.xml", "comments.xml",
      "fontTable.xml", "webSettings.xml", "commentsExtended.xml",
      "commentsIds.xml", "people.xml"],
    ctOverrideParts := some EXT_CT_PARTS,
    settings := some [SElem.trackRevisions],
    styleIds := some REQUIRED_STYLES,
    wordParts := ["document.xml", "comments.xml", "settings.xml",
      "styles.xml", "commentsExtended.xml", "commentsIds.xml", "people.xml"] }

/-- C7 (code bug).  `c7Pkg` is a readable zip whose settings part lacks an
rsids pool; the claim says repair completes and injects a synthetic pool,
but `_ensure_rsid_definitions` evaluates `random.randint(8, 15)` with
`random` never imported, so the repairer raises a `NameError` that the
`except zipfile.BadZipFile` handler does not catch — a hard failure on a
valid zip archive. -/
theorem C7_repair_raises_on_missing_rsids :
    docxXmlRepair true c7Pkg
      = Except.error (TopErr.pyError RErr.nameErrorRandom) := by
  rfl

theorem addMissing_of_present (req existing : List String)
    (h : ∀ f ∈ req, existing.contains f = true) :
    addMissing req existing = existing := by
  unfold addMissing
  have hfil : req.filter (fun r => !existing.contains r) = [] := by
    rw [List.filter_eq_nil_iff]
    intro a ha
    simpa using h a ha
  rw [hfil, List.append_nil]

/-- C8 (amended).  Repairing an already-valid package performs no semantic
mutation — the package content is unchanged part for part — but the
relationships, content-type, document and comments parts are still
re-serialized unconditionally, so exactly those four archive members are
rewritten. -/
theorem C8_repair_semantically_idempotent (p : RPackage)
    (ids ts cts : List String) (ss : List SElem) (sts : List String)
    (hci : p.commentIds = some ids)
    (horph : ∀ r ∈ p.commentRefIds, ids.contains r = true)
    (hrt : p.relsTargets = some ts)
    (hext : ∀ f ∈ EXT_INFRA_FILES, ts.contains f = true)
    (hcrel : ts.contains "comments.xml" = true)
    (hct : p.ctOverrideParts = some cts)
    (hctall : ∀ f ∈ EXT_CT_PARTS, cts.contains f = true)
    (hinfra : ∀ f ∈ EXT_INFRA_FILES, p.wordParts.contains f = true)
    (hset : p.settings = some ss)
    (htr : ss.any isTrackRevisions = true)
    (hrs : ss.any isRsidsElem = true)
    (hst : p.styleIds = some sts)
    (hstall : ∀ s ∈ REQUIRED_STYLES, sts.contains s = true) :
    repairSem p
      = Except.ok (p, ["word/_rels/document.xml.rels", "[Content_Types].xml",
          "word/document.xml", "word/comments.xml"]) := by
  have e1 : stepComments p = (p, []) := by
    simp only [stepComments, hci]
  have e2 : stepInfraFiles p = (p, []) := by
    have hm : EXT_INFRA_FILES.filter (fun f => !p.wordParts.contains f) = [] := by
      rw [List.filter_eq_nil_iff]
      intro a ha
      simpa using hinfra a ha
    simp only [stepInfraFiles, hm, List.append_nil, List.map_nil]
  have e3 : stepExtRels p = (p, ["word/_rels/document.xml.rels"]) := by
    simp only [stepExtRels, hrt, addMissing_of_present _ _ hext]
    rw [← hrt]
  have e4 : stepCtOverrides p = (p, ["[Content_Types].xml"]) := by
    simp only [stepCtOverrides, hct, addMissing_of_present _ _ hctall]
    rw [← hct]
  have e5 : stepRemoveOrphans p = (p, ["word/document.xml"]) := by
    have hfil : List.filter (fun r => ids.contains r) p.commentRefIds
        = p.commentRefIds :=
      List.filter_eq_self.mpr fun a ha => by simpa using horph a ha
    simp only [stepRemoveOrphans, hci, hfil]
    rw [← hci]
  have e6 : stepEnsureAllCommentIds p
      = Except.ok (p, ["word/comments.xml"]) := by
    have hany : (p.commentRefIds.any fun r => !ids.contains r) = false := by
      rw [List.any_eq_false]
      intro a ha
      simpa using horph a ha
    simp only [stepEnsureAllCommentIds, hci, hany, Bool.false_eq_true,
      if_false]
  have e7 : stepCommentRel p = (p, []) := by
    simp only [stepCommentRel, hrt]
    rw [if_pos hcrel]
  have e8 : stepTrackRevisions p = (p, []) := by
    simp only [stepTrackRevisions, hset]
    rw [if_pos htr]
  have e9 : stepRsids p = Except.ok (p, []) := by
    simp only [stepRsids, hset]
    rw [if_pos hrs]
  have e10 : stepStyles p = (p, []) := by
    have hm : REQUIRED_STYLES.filter (fun s => !sts.contains s) = [] := by
      rw [List.filter_eq_nil_iff]
      intro a ha
      simpa using hstall a ha
    simp only [stepStyles, hst, hm, List.isEmpty_nil, eq_self_iff_true,
      if_true]
  simp only [repairSem, e1, e2, e3, e4, e5, e6, e7, e8, e9, e10]
  rfl

def c8Targets : List String :=
  ["styles.xml", "settings.xml", "comments.xml", "fontTable.xml",
   "webSettings.xml", "commentsExtended.xml", "commentsIds.xml", "people.xml"]

def c8Settings : List SElem :=
  [SElem.rsids ["00aa11bb"], SElem.trackRevisions]

def c8Pkg : RPackage :=
  { commentRefIds := ["0"],
    commentIds := some ["0"],
    relsTargets := some c8Targets,
    ctOverrideParts := some EXT_CT_PARTS,
    settings := some c8Settings,
    styleIds := some REQUIRED_STYLES,
    wordParts := ["document.xml", "comments.xml", "settings.xml",
      "styles.xml", "commentsExtended.xml", "commentsIds.xml", "people.xml"] }

/-- Witness for C8 (amended) at a concrete fully-valid package. -/
theorem C8_repair_semantically_idempotent_witness :
    c8Pkg.commentIds = some ["0"] ∧
    repairSem c8Pkg
      = Except.ok (c8Pkg, ["word/_rels/document.xml.rels",
          "[Content_Types].xml", "word/document.xml", "word/comments.xml"]) :=
  ⟨rfl,
   C8_repair_semantically_idempotent c8Pkg ["0"] c8Targets EXT_CT_PARTS
     c8Settings REQUIRED_STYLES rfl (by decide) rfl (by decide) (by decide)
     rfl (by decide) (by decide) rfl (by decide) (by decide) rfl (by decide)⟩

/-! Byte-level behaviour of the unconditional rewrites: `tree.write(path,
pretty_print=True, encoding="UTF-8", xml_declaration=True)` always emits
lxml's own XML declaration `<?xml version='1.0' encoding='UTF-8'?>`
(single quotes, no standalone attribute), whereas Word-produced parts start
with `<?xml version="1.0" encoding="UTF-8" standalone="yes"?>`.  A part's
bytes are modelled as its declaration line plus a canonical rendering of
its relationship entries, so the declaration is the only difference for a
package whose body already is in canonical form. -/

def lxmlXmlDecl : String := "<?xml version='1.0' encoding='UTF-8'?>"

def wordXmlDecl : String :=
  "<?xml version=\"1.0\" encoding=\"UTF-8\" standalone=\"yes\"?>"

def relsBodyRender (ts : List String) : String :=
  "<Relationships xmlns=\"http://schemas.openxmlformats.org/package/2006/relationships\">"
    ++ String.join (ts.map fun t => "<Relationship Target=\"" ++ t ++ "\"/>")
    ++ "</Relationships>"

def relsPartBytes (decl : String) (ts : List String) : String :=
  decl ++ "\n" ++ relsBodyRender ts

/-- Bytes of the relationships part after `_ensure_extended_comment_relationships`
re-serializes it. -/
def lxmlRewrittenRelsBytes (ts : List String) : String :=
  relsPartBytes lxmlXmlDecl (addMissing EXT_INFRA_FILES ts)

/-- C8 (counterexample).  `c8Pkg` already contains every required piece of
infrastructure, yet repair rewrites four parts (first conjunct), and the
re-serialized relationships part is not byte-for-byte identical to the
original Word-style part even though no relationship was added (second and
third conjuncts) — refuting "nothing rewritten" and "byte-for-byte
identical". -/
theorem C8_byte_identity_counterexample :
    repairSem c8Pkg
      = Except.ok (c8Pkg, ["word/_rels/document.xml.rels",
          "[Content_Types].xml", "word/document.xml", "word/comments.xml"]) ∧
    addMissing EXT_INFRA_FILES c8Targets = c8Targets ∧
    lxmlRewrittenRelsBytes c8Targets ≠ relsPartBytes wordXmlDecl c8Targets := by
  refine ⟨by rfl, by rfl, by decide⟩

/-! ## PDF text-block line numbering
(`DocumentStructureExtractor._extract_pdf`, lines 276–293, versus
`JBGDocumentEditor._annotate_pdf`, lines 881–920)

A PyMuPDF text block is `(x0, y0, x1, y1, text, …)` and the y axis grows
downward, so the topmost block has the smallest `y0`.  Both passes sort the
page's blocks by `b[1]` and then number the non-empty ones from 1 using the
index in the sorted list of all blocks.  The extractor sorts with
`key=lambda b: -b[1]` (descending y, bottom-to-top, despite its comment
"sort top-down"), the annotator with `key=lambda b: b[1]` (ascending y,
top-to-bottom).  Python's stable `sorted` is modelled by insertion sort.
-/

def insertSorted {α : Type} (le : α → α → Bool) (a : α) : List α → List α
  | [] => [a]
  | b :: l => if le a b then a :: b :: l else b :: insertSorted le a l

def pySortedBy {α : Type} (key : α → Int) (l : List α) : List α :=
  l.foldr (insertSorted fun a b => decide (key a ≤ key b)) []

structure PBlock where
  y : Int
  text : String
deriving DecidableEq, Repr

/-- `_extract_pdf` per-page line list: blocks sorted by `-b[1]`, enumerated,
empty blocks dropped after numbering. -/
def extractPdfPageLines (blocks : List PBlock) : List (Nat × String) :=
  let sorted := pySortedBy (fun b => -b.y) blocks
  sorted.enum.filterMap fun ib =>
    if (pyStrip ib.2.text).isEmpty then none
    else some (ib.1 + 1, pyStrip ib.2.text)

/-- `_annotate_pdf` `line_texts`: blocks sorted by `b[1]`, enumerated, empty
blocks dropped after numbering. -/
def annotatePdfLineTexts (blocks : List PBlock) : List (Nat × String) :=
  let sorted := pySortedBy (fun b => b.y) blocks
  sorted.enum.filterMap fun ib =>
    if (pyStrip ib.2.text).isEmpty then none
    else some (ib.1 + 1, pyStrip ib.2.text)

def c9Blocks : List PBlock := [⟨10, "top line"⟩, ⟨20, "bottom line"⟩]

/-- C9 (code bug).  On a page with two non-empty blocks, the block at
`y = 10` (topmost) and the block at `y = 20`, structure extraction assigns
line 1 to the BOTTOM block (it sorts by descending y, contradicting its own
"sort top-down" comment), while the annotation pass assigns line 1 to the
top block — the claim requires both passes to number top-to-bottom
consistently, with line 1 the topmost non-empty block. -/
theorem C9_pdf_line_numbering_mismatch :
    extractPdfPageLines c9Blocks = [(1, "bottom line"), (2, "top line")] ∧
    annotatePdfLineTexts c9Blocks = [(1, "top line"), (2, "bottom line")] ∧
    extractPdfPageLines c9Blocks ≠ annotatePdfLineTexts c9Blocks := by
  refine ⟨by decide, by decide, by decide⟩

end JBG
